import Mathlib

/-!
Verification of the rsdns DNS codec, header, EDNS0 overlay and domain trie.

Shallow embedding conventions:
* Rust `u8`/`u16`/`u32` values are `Nat`s; casts are written with explicit
  `% 2^w` (or are guarded by bounds hypotheses).
* Rust `String` / `Vec<u8>` values are byte lists (`List Nat`); UTF-8
  decoding (`String::from_utf8`) is modelled as the identity on the byte
  list (the byte representation of the resulting string).
* Fallible Rust code (`Result`) lands in the `PRes` type below; a Rust
  panic (slice out of range, `unwrap`, `expect`, arithmetic underflow) is
  the distinguished outcome `panicked`; unbounded recursion or loops are
  given explicit fuel, exhaustion being the outcome `nofuel`.
* Rust's stable `sort_by` is modelled by insertion sort (stable sorts are
  extensionally unique, so any stable sort is a faithful model).
* `slice::binary_search_by` is ported with its interval recursion made
  structural on an explicit fuel equal to the interval width.
-/

set_option maxRecDepth 40000

namespace Rsdns

/-- Outcome of running a piece of fallible Rust code: normal return,
`Err` return, panic, or fuel exhaustion (used to witness divergence). -/
inductive PRes (α : Type) where
  | ok (a : α)
  | err
  | panicked
  | nofuel
deriving DecidableEq, Repr

/-- Sequencing that propagates `err`, `panicked` and `nofuel` (the `?`
operator plus panic propagation). -/
def PRes.bind {α β : Type} : PRes α → (α → PRes β) → PRes β
  | .ok a, f => f a
  | .err, _ => .err
  | .panicked, _ => .panicked
  | .nofuel, _ => .nofuel

/-- Big-endian `u16` read at position `i` (out-of-range bytes read as 0;
all call sites are bounds-checked first, as in the source). -/
def be16 (raw : List Nat) (i : Nat) : Nat :=
  (raw.getD i 0) * 256 + raw.getD (i + 1) 0

/-- Big-endian `u32` read at position `i`. -/
def be32 (raw : List Nat) (i : Nat) : Nat :=
  ((raw.getD i 0) * 256 + raw.getD (i + 1) 0) * 65536 +
    (raw.getD (i + 2) 0) * 256 + raw.getD (i + 3) 0

/-- `u16::to_be_bytes` of `n` (mod 2^16). -/
def beBytes2 (n : Nat) : List Nat :=
  [n % 65536 / 256, n % 256]

/-- `u32::to_be_bytes` of `n` (mod 2^32). -/
def beBytes4 (n : Nat) : List Nat :=
  [n % 4294967296 / 16777216, n % 16777216 / 65536, n % 65536 / 256, n % 256]

namespace Util

/-- `util::is_compressed`: the 14-bit pointer offset held in two bytes and
whether the top two bits of the first byte are both set. -/
def is_compressed (b0 b1 : Nat) : Nat × Bool :=
  ((b0 &&& 63) * 256 + b1, b0 &&& 192 == 192)

/-- `util::is_compressed_wrap`: as `is_compressed` on the first two bytes,
or `(0, false)` when fewer than two bytes remain. -/
def is_compressed_wrap (raw : List Nat) : Nat × Bool :=
  if raw.length < 2 then (0, false)
  else is_compressed (raw.getD 0 0) (raw.getD 1 0)

end Util

/-- A label: the byte string of one domain-name component. -/
abbrev Label := List Nat

namespace Labels

/-- `Labels::encode_to_str`: join the labels with `'.'` (byte 46). -/
def encode_to_str (labels : List Label) : List Nat :=
  List.intercalate [46] labels

/-- `Labels::parse` from `labels.rs`.  State: `pos` is both the local
cursor `start` and the caller's `*offset` (they advance in lockstep in the
source), `acc` the labels read so far.  A pointer byte recurses into the
14-bit target and then breaks WITHOUT advancing the caller's offset, as
the source does.  Reading past the end of the iterator yields the byte 0
(`unwrap_or`).  Entering with `pos > raw.len()` panics in the source
(`raw[*offset..]`).  Fuel bounds the pointer recursion, which the source
does not: a pointer cycle recurses forever. -/
def parse : Nat → List Nat → Nat → List Label → PRes (List Label × Nat)
  | 0, _, _, _ => .nofuel
  | fuel + 1, raw, pos, acc =>
    if pos > raw.length then .panicked
    else
      let c := Util.is_compressed_wrap (raw.drop pos)
      if c.2 then
        match parse fuel raw c.1 [] with
        | .ok (lbs, _) => .ok (acc ++ lbs, pos)
        | .err => .err
        | .panicked => .panicked
        | .nofuel => .nofuel
      else
        let u := raw.getD pos 0
        if u == 0 then .ok (acc, pos + 1)
        else
          let pos2 := pos + 1 + u
          if pos2 ≥ raw.length then .err
          else parse fuel raw pos2 (acc ++ [(raw.drop (pos + 1)).take u])

end Labels

end Rsdns

namespace Rsdns

/-- Sanity check mirroring `test_labels_from`: `google.com` parses. -/
theorem labels_parse_google :
    Labels.parse 9 [6, 103, 111, 111, 103, 108, 101, 3, 99, 111, 109, 0] 0 [] =
      .ok ([[103, 111, 111, 103, 108, 101], [99, 111, 109]], 12) := by decide

/-- Sanity check: the same bytes without the zero terminator are rejected. -/
theorem labels_parse_google_truncated :
    Labels.parse 9 [6, 103, 111, 111, 103, 108, 101, 3, 99, 111, 109] 0 [] = .err := by
  decide

/-! ## Header (`header.rs`): twelve bytes with bit-packed flag fields. -/

namespace Header

/-- `Header::set_bit`: guard the index, bit position and bit value, then
read-modify-write one bit of one byte (`rsbit`'s `set_1` / `set_0`). -/
def set_bit (h : List Nat) (index pos val : Nat) : List Nat :=
  if index > h.length ∨ pos ≥ 8 ∨ val > 1 then h
  else
    let b := h.getD index 0
    h.set index (if val = 1 then b ||| (1 <<< pos) else b &&& (255 ^^^ (1 <<< pos)))

/-- The recurring source pattern `if cond { set_bit(i, p, 1) } else
{ set_bit(i, p, 0) }`. -/
def bset (cond : Bool) (h : List Nat) (i p : Nat) : List Nat :=
  if cond then set_bit h i p 1 else set_bit h i p 0

/-- `Header::id`. -/
def id (h : List Nat) : Nat := be16 h 0

/-- `Header::with_id`. -/
def with_id (h : List Nat) (i : Nat) : List Nat :=
  (h.set 0 (i % 65536 / 256)).set 1 (i % 256)

/-- `Header::qr`. -/
def qr (h : List Nat) : Bool := (h.getD 2 0) &&& 128 == 128

/-- `Header::with_qr`. -/
def with_qr (h : List Nat) (v : Bool) : List Nat :=
  bset v h 2 7

/-- `Header::opcode`. -/
def opcode (h : List Nat) : Nat := ((h.getD 2 0) &&& 120) >>> 3

/-- `Header::with_opcode`: a value above 0xF is ignored, otherwise bits
6..3 of byte 2 are each set from `opcode << 3`. -/
def with_opcode (h : List Nat) (v : Nat) : List Nat :=
  if v > 15 then h
  else
    bset (v <<< 3 &&& 8 == 8)
      (bset (v <<< 3 &&& 16 == 16)
        (bset (v <<< 3 &&& 32 == 32)
          (bset (v <<< 3 &&& 64 == 64) h 2 6) 2 5) 2 4) 2 3

/-- `Header::aa`. -/
def aa (h : List Nat) : Bool := (h.getD 2 0) &&& 4 == 4

/-- `Header::with_aa`. -/
def with_aa (h : List Nat) (v : Bool) : List Nat :=
  bset v h 2 2

/-- `Header::tc`. -/
def tc (h : List Nat) : Bool := (h.getD 2 0) &&& 2 == 2

/-- `Header::with_tc`. -/
def with_tc (h : List Nat) (v : Bool) : List Nat :=
  bset v h 2 1

/-- `Header::rd`. -/
def rd (h : List Nat) : Bool := (h.getD 2 0) &&& 1 == 1

/-- `Header::with_rd`. -/
def with_rd (h : List Nat) (v : Bool) : List Nat :=
  bset v h 2 0

/-- `Header::ra`. -/
def ra (h : List Nat) : Bool := (h.getD 3 0) &&& 128 == 128

/-- `Header::with_ra`. -/
def with_ra (h : List Nat) (v : Bool) : List Nat :=
  bset v h 3 7

/-- `Header::z`. -/
def z (h : List Nat) : Nat := ((h.getD 3 0) &&& 112) >>> 4

/-- `Header::with_z`: a value above 0x7 is ignored, otherwise bits 6..4
of byte 3 are each set from `z << 4`. -/
def with_z (h : List Nat) (v : Nat) : List Nat :=
  if v > 7 then h
  else
    bset (v <<< 4 &&& 16 == 16)
      (bset (v <<< 4 &&& 32 == 32)
        (bset (v <<< 4 &&& 64 == 64) h 3 6) 3 5) 3 4

/-- `Header::rcode`. -/
def rcode (h : List Nat) : Nat := (h.getD 3 0) &&& 15

/-- `Header::with_rcode`: a value above 0xF is ignored, otherwise bits
3..0 of byte 3 are each set from `rcode`. -/
def with_rcode (h : List Nat) (v : Nat) : List Nat :=
  if v > 15 then h
  else
    bset (v &&& 1 == 1)
      (bset (v &&& 2 == 2)
        (bset (v &&& 4 == 4)
          (bset (v &&& 8 == 8) h 3 3) 3 2) 3 1) 3 0

/-- `Header::qdcount`. -/
def qdcount (h : List Nat) : Nat := be16 h 4

/-- `Header::with_qdcount`. -/
def with_qdcount (h : List Nat) (n : Nat) : List Nat :=
  (h.set 4 (n % 65536 / 256)).set 5 (n % 256)

/-- `Header::ancount`. -/
def ancount (h : List Nat) : Nat := be16 h 6

/-- `Header::with_ancount`. -/
def with_ancount (h : List Nat) (n : Nat) : List Nat :=
  (h.set 6 (n % 65536 / 256)).set 7 (n % 256)

/-- `Header::nscount`. -/
def nscount (h : List Nat) : Nat := be16 h 8

/-- `Header::with_nscount`. -/
def with_nscount (h : List Nat) (n : Nat) : List Nat :=
  (h.set 8 (n % 65536 / 256)).set 9 (n % 256)

/-- `Header::arcount`. -/
def arcount (h : List Nat) : Nat := be16 h 10

/-- `Header::with_arcount`. -/
def with_arcount (h : List Nat) (n : Nat) : List Nat :=
  (h.set 10 (n % 65536 / 256)).set 11 (n % 256)

/-- The action of `set_bit` on the touched byte itself. -/
def bbyte (c : Bool) (b p : Nat) : Nat :=
  if c then b ||| (1 <<< p) else b &&& (255 ^^^ (1 <<< p))

theorem getD_set_self (h : List Nat) (i x : Nat) (hi : i < h.length) :
    (h.set i x).getD i 0 = x := by
  simp [List.getD_eq_getElem?_getD, List.getElem?_set_self, hi]

theorem getD_set_ne (h : List Nat) (i j : Nat) (x : Nat) (hij : i ≠ j) :
    (h.set i x).getD j 0 = h.getD j 0 := by
  simp [List.getD_eq_getElem?_getD, List.getElem?_set_ne hij]

theorem bset_eq (c : Bool) (h : List Nat) (i p : Nat) (hi : i < h.length) (hp : p < 8) :
    bset c h i p = h.set i (bbyte c (h.getD i 0) p) := by
  cases c
  · rw [show bset false h i p = set_bit h i p 0 from rfl, set_bit, if_neg (by omega)]
    rfl
  · rw [show bset true h i p = set_bit h i p 1 from rfl, set_bit, if_neg (by omega)]
    rfl

theorem bset_set (h : List Nat) (hlen : h.length = 12) (c : Bool) (i p : Nat)
    (hi : i < 12) (hp : p < 8) (X : Nat) :
    bset c (h.set i X) i p = h.set i (bbyte c X p) := by
  rw [bset_eq c (h.set i X) i p (by rw [List.length_set]; omega) hp,
    getD_set_self h i X (by omega), List.set_set]

end Header

set_option maxHeartbeats 2000000 in
/-- C7: for every header flag field (QR, Opcode, AA, TC, RD, RA, Z, RCODE)
and every valid value `v` of that field, calling the corresponding
`with_*` setter makes the getter return `v`, leaves the other fields
packed in the same byte unchanged, and leaves every other byte of the
12-byte header (hence ID, the remaining flag fields and the four section
counts) unchanged. -/
theorem header_set_get_frame (h : List Nat) (hlen : h.length = 12)
    (hb2 : h.getD 2 0 < 256) (hb3 : h.getD 3 0 < 256) :
    (∀ v : Bool, Header.qr (Header.with_qr h v) = v ∧
      Header.opcode (Header.with_qr h v) = Header.opcode h ∧
      Header.aa (Header.with_qr h v) = Header.aa h ∧
      Header.tc (Header.with_qr h v) = Header.tc h ∧
      Header.rd (Header.with_qr h v) = Header.rd h ∧
      ∀ i, i ≠ 2 → (Header.with_qr h v).getD i 0 = h.getD i 0) ∧
    (∀ v : Nat, v ≤ 15 → Header.opcode (Header.with_opcode h v) = v ∧
      Header.qr (Header.with_opcode h v) = Header.qr h ∧
      Header.aa (Header.with_opcode h v) = Header.aa h ∧
      Header.tc (Header.with_opcode h v) = Header.tc h ∧
      Header.rd (Header.with_opcode h v) = Header.rd h ∧
      ∀ i, i ≠ 2 → (Header.with_opcode h v).getD i 0 = h.getD i 0) ∧
    (∀ v : Bool, Header.aa (Header.with_aa h v) = v ∧
      Header.qr (Header.with_aa h v) = Header.qr h ∧
      Header.opcode (Header.with_aa h v) = Header.opcode h ∧
      Header.tc (Header.with_aa h v) = Header.tc h ∧
      Header.rd (Header.with_aa h v) = Header.rd h ∧
      ∀ i, i ≠ 2 → (Header.with_aa h v).getD i 0 = h.getD i 0) ∧
    (∀ v : Bool, Header.tc (Header.with_tc h v) = v ∧
      Header.qr (Header.with_tc h v) = Header.qr h ∧
      Header.opcode (Header.with_tc h v) = Header.opcode h ∧
      Header.aa (Header.with_tc h v) = Header.aa h ∧
      Header.rd (Header.with_tc h v) = Header.rd h ∧
      ∀ i, i ≠ 2 → (Header.with_tc h v).getD i 0 = h.getD i 0) ∧
    (∀ v : Bool, Header.rd (Header.with_rd h v) = v ∧
      Header.qr (Header.with_rd h v) = Header.qr h ∧
      Header.opcode (Header.with_rd h v) = Header.opcode h ∧
      Header.aa (Header.with_rd h v) = Header.aa h ∧
      Header.tc (Header.with_rd h v) = Header.tc h ∧
      ∀ i, i ≠ 2 → (Header.with_rd h v).getD i 0 = h.getD i 0) ∧
    (∀ v : Bool, Header.ra (Header.with_ra h v) = v ∧
      Header.z (Header.with_ra h v) = Header.z h ∧
      Header.rcode (Header.with_ra h v) = Header.rcode h ∧
      ∀ i, i ≠ 3 → (Header.with_ra h v).getD i 0 = h.getD i 0) ∧
    (∀ v : Nat, v ≤ 7 → Header.z (Header.with_z h v) = v ∧
      Header.ra (Header.with_z h v) = Header.ra h ∧
      Header.rcode (Header.with_z h v) = Header.rcode h ∧
      ∀ i, i ≠ 3 → (Header.with_z h v).getD i 0 = h.getD i 0) ∧
    (∀ v : Nat, v ≤ 15 → Header.rcode (Header.with_rcode h v) = v ∧
      Header.ra (Header.with_rcode h v) = Header.ra h ∧
      Header.z (Header.with_rcode h v) = Header.z h ∧
      ∀ i, i ≠ 3 → (Header.with_rcode h v).getD i 0 = h.getD i 0) := by
  have h2 : (2 : Nat) < h.length := by omega
  have h3 : (3 : Nat) < h.length := by omega
  have eq_qr : ∀ v : Bool, Header.with_qr h v =
      h.set 2 (Header.bbyte v (h.getD 2 0) 7) := fun v =>
    Header.bset_eq v h 2 7 h2 (by omega)
  have eq_aa : ∀ v : Bool, Header.with_aa h v =
      h.set 2 (Header.bbyte v (h.getD 2 0) 2) := fun v =>
    Header.bset_eq v h 2 2 h2 (by omega)
  have eq_tc : ∀ v : Bool, Header.with_tc h v =
      h.set 2 (Header.bbyte v (h.getD 2 0) 1) := fun v =>
    Header.bset_eq v h 2 1 h2 (by omega)
  have eq_rd : ∀ v : Bool, Header.with_rd h v =
      h.set 2 (Header.bbyte v (h.getD 2 0) 0) := fun v =>
    Header.bset_eq v h 2 0 h2 (by omega)
  have eq_ra : ∀ v : Bool, Header.with_ra h v =
      h.set 3 (Header.bbyte v (h.getD 3 0) 7) := fun v =>
    Header.bset_eq v h 3 7 h3 (by omega)
  have eq_op : ∀ v : Nat, v ≤ 15 → Header.with_opcode h v =
      h.set 2 (Header.bbyte (v <<< 3 &&& 8 == 8)
        (Header.bbyte (v <<< 3 &&& 16 == 16)
          (Header.bbyte (v <<< 3 &&& 32 == 32)
            (Header.bbyte (v <<< 3 &&& 64 == 64) (h.getD 2 0) 6) 5) 4) 3) := by
    intro v hv
    rw [Header.with_opcode, if_neg (by omega),
      Header.bset_eq _ h 2 6 h2 (by omega),
      Header.bset_set h hlen _ 2 5 (by omega) (by omega),
      Header.bset_set h hlen _ 2 4 (by omega) (by omega),
      Header.bset_set h hlen _ 2 3 (by omega) (by omega)]
  have eq_z : ∀ v : Nat, v ≤ 7 → Header.with_z h v =
      h.set 3 (Header.bbyte (v <<< 4 &&& 16 == 16)
        (Header.bbyte (v <<< 4 &&& 32 == 32)
          (Header.bbyte (v <<< 4 &&& 64 == 64) (h.getD 3 0) 6) 5) 4) := by
    intro v hv
    rw [Header.with_z, if_neg (by omega),
      Header.bset_eq _ h 3 6 h3 (by omega),
      Header.bset_set h hlen _ 3 5 (by omega) (by omega),
      Header.bset_set h hlen _ 3 4 (by omega) (by omega)]
  have eq_rc : ∀ v : Nat, v ≤ 15 → Header.with_rcode h v =
      h.set 3 (Header.bbyte (v &&& 1 == 1)
        (Header.bbyte (v &&& 2 == 2)
          (Header.bbyte (v &&& 4 == 4)
            (Header.bbyte (v &&& 8 == 8) (h.getD 3 0) 3) 2) 1) 0) := by
    intro v hv
    rw [Header.with_rcode, if_neg (by omega),
      Header.bset_eq _ h 3 3 h3 (by omega),
      Header.bset_set h hlen _ 3 2 (by omega) (by omega),
      Header.bset_set h hlen _ 3 1 (by omega) (by omega),
      Header.bset_set h hlen _ 3 0 (by omega) (by omega)]
  refine ⟨fun v => ?_, fun v hv => ?_, fun v => ?_, fun v => ?_, fun v => ?_,
    fun v => ?_, fun v hv => ?_, fun v hv => ?_⟩
  · rw [eq_qr v]
    refine ⟨?_, ?_, ?_, ?_, ?_, fun i hi => Header.getD_set_ne h 2 i _ fun e => hi e.symm⟩ <;>
      simp only [Header.qr, Header.opcode, Header.aa, Header.tc, Header.rd,
        Header.getD_set_self h 2 _ h2] <;>
      (revert v
       revert hb2
       generalize h.getD 2 0 = b
       revert b
       decide)
  · rw [eq_op v hv]
    refine ⟨?_, ?_, ?_, ?_, ?_, fun i hi => Header.getD_set_ne h 2 i _ fun e => hi e.symm⟩ <;>
      simp only [Header.qr, Header.opcode, Header.aa, Header.tc, Header.rd,
        Header.getD_set_self h 2 _ h2] <;>
      (revert hv
       revert v
       revert hb2
       generalize h.getD 2 0 = b
       revert b
       decide)
  · rw [eq_aa v]
    refine ⟨?_, ?_, ?_, ?_, ?_, fun i hi => Header.getD_set_ne h 2 i _ fun e => hi e.symm⟩ <;>
      simp only [Header.qr, Header.opcode, Header.aa, Header.tc, Header.rd,
        Header.getD_set_self h 2 _ h2] <;>
      (revert v
       revert hb2
       generalize h.getD 2 0 = b
       revert b
       decide)
  · rw [eq_tc v]
    refine ⟨?_, ?_, ?_, ?_, ?_, fun i hi => Header.getD_set_ne h 2 i _ fun e => hi e.symm⟩ <;>
      simp only [Header.qr, Header.opcode, Header.aa, Header.tc, Header.rd,
        Header.getD_set_self h 2 _ h2] <;>
      (revert v
       revert hb2
       generalize h.getD 2 0 = b
       revert b
       decide)
  · rw [eq_rd v]
    refine ⟨?_, ?_, ?_, ?_, ?_, fun i hi => Header.getD_set_ne h 2 i _ fun e => hi e.symm⟩ <;>
      simp only [Header.qr, Header.opcode, Header.aa, Header.tc, Header.rd,
        Header.getD_set_self h 2 _ h2] <;>
      (revert v
       revert hb2
       generalize h.getD 2 0 = b
       revert b
       decide)
  · rw [eq_ra v]
    refine ⟨?_, ?_, ?_, fun i hi => Header.getD_set_ne h 3 i _ fun e => hi e.symm⟩ <;>
      simp only [Header.ra, Header.z, Header.rcode, Header.getD_set_self h 3 _ h3] <;>
      (revert v
       revert hb3
       generalize h.getD 3 0 = b
       revert b
       decide)
  · rw [eq_z v hv]
    refine ⟨?_, ?_, ?_, fun i hi => Header.getD_set_ne h 3 i _ fun e => hi e.symm⟩ <;>
      simp only [Header.ra, Header.z, Header.rcode, Header.getD_set_self h 3 _ h3] <;>
      (revert hv
       revert v
       revert hb3
       generalize h.getD 3 0 = b
       revert b
       decide)
  · rw [eq_rc v hv]
    refine ⟨?_, ?_, ?_, fun i hi => Header.getD_set_ne h 3 i _ fun e => hi e.symm⟩ <;>
      simp only [Header.ra, Header.z, Header.rcode, Header.getD_set_self h 3 _ h3] <;>
      (revert hv
       revert v
       revert hb3
       generalize h.getD 3 0 = b
       revert b
       decide)

end Rsdns

namespace Rsdns

/-- Witness for `header_set_get_frame` at the concrete header
`[0,1,2,3,4,5,6,7,8,9,10,11]`. -/
theorem header_set_get_frame_witness :
    (([0, 1, 2, 3, 4, 5, 6, 7, 8, 9, 10, 11] : List Nat).length = 12 ∧
      ([0, 1, 2, 3, 4, 5, 6, 7, 8, 9, 10, 11] : List Nat).getD 2 0 < 256 ∧
      ([0, 1, 2, 3, 4, 5, 6, 7, 8, 9, 10, 11] : List Nat).getD 3 0 < 256) ∧
    (∀ v : Nat, v ≤ 15 →
      Header.opcode (Header.with_opcode [0, 1, 2, 3, 4, 5, 6, 7, 8, 9, 10, 11] v) = v ∧
      Header.qr (Header.with_opcode [0, 1, 2, 3, 4, 5, 6, 7, 8, 9, 10, 11] v) =
        Header.qr [0, 1, 2, 3, 4, 5, 6, 7, 8, 9, 10, 11] ∧
      Header.aa (Header.with_opcode [0, 1, 2, 3, 4, 5, 6, 7, 8, 9, 10, 11] v) =
        Header.aa [0, 1, 2, 3, 4, 5, 6, 7, 8, 9, 10, 11] ∧
      Header.tc (Header.with_opcode [0, 1, 2, 3, 4, 5, 6, 7, 8, 9, 10, 11] v) =
        Header.tc [0, 1, 2, 3, 4, 5, 6, 7, 8, 9, 10, 11] ∧
      Header.rd (Header.with_opcode [0, 1, 2, 3, 4, 5, 6, 7, 8, 9, 10, 11] v) =
        Header.rd [0, 1, 2, 3, 4, 5, 6, 7, 8, 9, 10, 11] ∧
      ∀ i, i ≠ 2 →
        (Header.with_opcode [0, 1, 2, 3, 4, 5, 6, 7, 8, 9, 10, 11] v).getD i 0 =
          ([0, 1, 2, 3, 4, 5, 6, 7, 8, 9, 10, 11] : List Nat).getD i 0) :=
  ⟨⟨by decide, by decide, by decide⟩,
    (header_set_get_frame [0, 1, 2, 3, 4, 5, 6, 7, 8, 9, 10, 11]
      (by decide) (by decide) (by decide)).2.1⟩

/-- C10: calling `Header::with_opcode` with a value above 15,
`Header::with_z` with a value above 7, or `Header::with_rcode` with a
value above 15 is a silent no-op: the guard at the top of each setter
returns with all twelve header bytes unchanged and no error is
reported. -/
theorem header_setters_out_of_range_noop (h : List Nat) (v1 v2 v3 : Nat)
    (hv1 : 15 < v1) (hv2 : 7 < v2) (hv3 : 15 < v3) :
    Header.with_opcode h v1 = h ∧ Header.with_z h v2 = h ∧
      Header.with_rcode h v3 = h := by
  refine ⟨?_, ?_, ?_⟩
  · rw [Header.with_opcode, if_pos (by omega)]
  · rw [Header.with_z, if_pos (by omega)]
  · rw [Header.with_rcode, if_pos (by omega)]

/-- Witness for `header_setters_out_of_range_noop` at a concrete header
and the values 99, 8 and 16. -/
theorem header_setters_out_of_range_noop_witness :
    (15 < 99 ∧ 7 < 8 ∧ 15 < 16) ∧
    (Header.with_opcode [0, 1, 2, 3, 4, 5, 6, 7, 8, 9, 10, 11] 99 =
        [0, 1, 2, 3, 4, 5, 6, 7, 8, 9, 10, 11] ∧
      Header.with_z [0, 1, 2, 3, 4, 5, 6, 7, 8, 9, 10, 11] 8 =
        [0, 1, 2, 3, 4, 5, 6, 7, 8, 9, 10, 11] ∧
      Header.with_rcode [0, 1, 2, 3, 4, 5, 6, 7, 8, 9, 10, 11] 16 =
        [0, 1, 2, 3, 4, 5, 6, 7, 8, 9, 10, 11]) :=
  ⟨⟨by decide, by decide, by decide⟩,
    header_setters_out_of_range_noop [0, 1, 2, 3, 4, 5, 6, 7, 8, 9, 10, 11]
      99 8 16 (by decide) (by decide) (by decide)⟩

end Rsdns

namespace Rsdns

/-! ## RDATA variants (`dns/rdata/*.rs`). -/

/-- RR `TYPE_*` constants from `dns/mod.rs`. -/
def TYPE_A : Nat := 1
def TYPE_NS : Nat := 2
def TYPE_MD : Nat := 3
def TYPE_MF : Nat := 4
def TYPE_CNAME : Nat := 5
def TYPE_SOA : Nat := 6
def TYPE_MB : Nat := 7
def TYPE_MG : Nat := 8
def TYPE_MR : Nat := 9
def TYPE_NULL : Nat := 10
def TYPE_WKS : Nat := 11
def TYPE_PTR : Nat := 12
def TYPE_HINFO : Nat := 13
def TYPE_MINFO : Nat := 14
def TYPE_MX : Nat := 15
def TYPE_TXT : Nat := 16
def TYPE_OPT : Nat := 41

/-- Loop body of `parse_charactor_string`: `nextv` is the value the
source's `next` binding holds (the iterator itself is never advanced past
index 1, so each new `next` is read at absolute index `1 + length`), and
`start` advances by exactly one per iteration, both as in the source. -/
def pcsLoop : Nat → List Nat → Option Nat → Nat → List (List Nat) →
    PRes (List (List Nat))
  | 0, _, _, _, _ => .nofuel
  | fuel + 1, rdata, nextv, start, acc =>
    match nextv with
    | none => .ok acc
    | some len =>
      let start1 := start + 1
      if start1 + len > rdata.length then .err
      else
        pcsLoop fuel rdata (rdata.get? (1 + len)) start1
          (acc ++ [(rdata.drop start1).take len])

/-- `parse_charactor_string` from `dns/rdata/mod.rs`. -/
def parse_charactor_string (fuel : Nat) (rdata : List Nat) :
    PRes (List (List Nat)) :=
  pcsLoop fuel rdata rdata.head? 0 []

/-- Inner loop of `parse_domain_name`: accumulate the labels of one name
starting at `offset` inside `rdata`, following a compression pointer into
the full message `raw`.  An over-long length byte makes the source slice
out of range (a panic); a name running to the end of the RDATA without a
terminator is an error. -/
def pdnInner : Nat → List Nat → List Nat → Nat → List Label →
    PRes (List Label × Nat)
  | 0, _, _, _, _ => .nofuel
  | fuel + 1, raw, rdata, offset, acc =>
    if rdata.getD offset 0 == 0 then .ok (acc, offset + 1)
    else
      let c := Util.is_compressed_wrap (rdata.drop offset)
      if c.2 then
        match Labels.parse fuel raw c.1 [] with
        | .ok (lbs, _) => .ok (acc ++ lbs, offset + 2)
        | .err => .err
        | .panicked => .panicked
        | .nofuel => .nofuel
      else
        let len := rdata.getD offset 0
        let start := offset + 1
        if start + len > rdata.length then .panicked
        else
          let acc1 := acc ++ [(rdata.drop start).take len]
          let offset1 := offset + 1 + len
          if offset1 ≥ rdata.length then .err
          else pdnInner fuel raw rdata offset1 acc1

/-- Outer loop of `parse_domain_name`: read names until the RDATA slice is
exhausted. -/
def pdnOuter : Nat → List Nat → List Nat → Nat → List (List Label) →
    PRes (List (List Label))
  | 0, _, _, _, _ => .nofuel
  | fuel + 1, raw, rdata, offset, acc =>
    if offset < rdata.length then
      match pdnInner fuel raw rdata offset [] with
      | .ok (lbs, offset1) => pdnOuter fuel raw rdata offset1 (acc ++ [lbs])
      | .err => .err
      | .panicked => .panicked
      | .nofuel => .nofuel
    else .ok acc

/-- `parse_domain_name` from `dns/rdata/mod.rs`. -/
def parse_domain_name (fuel : Nat) (raw rdata : List Nat) :
    PRes (List (List Label)) :=
  pdnOuter fuel raw rdata 0 []

/-- The tagged RDATA union `RDataType` from `dns/rdata/mod.rs` (each
variant carries the decoded payload of the struct in its file; domain
names are stored as the dot-joined strings the source keeps). -/
inductive RDataType where
  | rnone
  | cname (name : List Nat)
  | hinfo (synthesized : Bool) (cpu os : List Nat)
  | mb (name : List Nat)
  | md (name : List Nat)
  | mf (name : List Nat)
  | mg (name : List Nat)
  | minfo (rmail_bx email_bx : List Nat)
  | mr (name : List Nat)
  | mx (preference : Nat) (exchange : List Nat)
  | null (data : List Nat)
  | ns (name : List Nat)
  | ptr (name : List Nat)
  | soa (mname rname : List Nat) (serial refresh retry expire minimum : Nat)
  | txt (s : List Nat)
  | a (octets : List Nat)
  | wks (addr : List Nat) (protocol : Nat) (bit_map : List Nat)
deriving DecidableEq, Repr

/-- The shared decode shape of `CName`, `MG`, `MR` and `PTR`: probe the
first two RDATA bytes for a pointer, then parse labels either from the
message at the pointer target or from the RDATA start. -/
def decodeSingleName (fuel : Nat) (raw rdata : List Nat) : PRes (List Nat) :=
  let c := Util.is_compressed_wrap rdata
  if c.2 then
    match Labels.parse fuel raw c.1 [] with
    | .ok (lbs, _) => .ok (Labels.encode_to_str lbs)
    | .err => .err
    | .panicked => .panicked
    | .nofuel => .nofuel
  else
    match Labels.parse fuel rdata 0 [] with
    | .ok (lbs, _) => .ok (Labels.encode_to_str lbs)
    | .err => .err
    | .panicked => .panicked
    | .nofuel => .nofuel

/-- The shared decode shape of `NS` and `MD` (and, per its doc comment,
the missing `parse_domain_name_without_len` used by `MB` and `MF`):
`parse_domain_name(raw, rdata)?.get(0).unwrap()` — an empty name list
makes the `unwrap` panic. -/
def decodeFirstName (fuel : Nat) (raw rdata : List Nat) : PRes (List Nat) :=
  match parse_domain_name fuel raw rdata with
  | .ok [] => .panicked
  | .ok (l :: _) => .ok (Labels.encode_to_str l)
  | .err => .err
  | .panicked => .panicked
  | .nofuel => .nofuel

/-- `HInfo::decode`: character strings; one string alone is accepted
(RFC 8482 synthesized HINFO). -/
def hinfoDecode (fuel : Nat) (rdata : List Nat) : PRes RDataType :=
  match parse_charactor_string fuel rdata with
  | .ok list =>
    let s := list.length ≥ 1
    let cpu := if list.length ≥ 1 then list.getD 0 [] else []
    let os := if list.length ≥ 2 then list.getD 1 [] else []
    .ok (.hinfo (s && !(list.length ≥ 2 : Bool)) cpu os)
  | .err => .err
  | .panicked => .panicked
  | .nofuel => .nofuel

/-- `MInfo::decode`'s `getv` closure: at `pos` within the RDATA, either
follow a pointer into `raw` (advancing by 2) or parse labels in place. -/
def minfoGetv (fuel : Nat) (raw rdata : List Nat) (pos : Nat) :
    PRes (List Label × Nat) :=
  if pos > rdata.length then .err
  else
    let c := Util.is_compressed_wrap (rdata.drop pos)
    if c.2 then
      match Labels.parse fuel raw c.1 [] with
      | .ok (lbs, _) => .ok (lbs, pos + 2)
      | .err => .err
      | .panicked => .panicked
      | .nofuel => .nofuel
    else Labels.parse fuel rdata pos []

/-- `MInfo::decode`: two names read in sequence by `getv`. -/
def minfoDecode (fuel : Nat) (raw rdata : List Nat) : PRes RDataType :=
  PRes.bind (minfoGetv fuel raw rdata 0) fun r1 =>
    PRes.bind (minfoGetv fuel raw rdata r1.2) fun r2 =>
      .ok (.minfo (Labels.encode_to_str r1.1) (Labels.encode_to_str r2.1))

/-- `MX::decode`: `rdata[..2]` panics when fewer than two bytes remain;
`parse_domain_name(..)?.get(0).unwrap()` panics when no name was read. -/
def mxDecode (fuel : Nat) (raw rdata : List Nat) : PRes RDataType :=
  if rdata.length < 2 then .panicked
  else
    match parse_domain_name fuel raw (rdata.drop 2) with
    | .ok [] => .panicked
    | .ok (l :: _) => .ok (.mx (be16 rdata 0) (Labels.encode_to_str l))
    | .err => .err
    | .panicked => .panicked
    | .nofuel => .nofuel

/-- `SOA::decode`: `rdata[..rdata.len() - 20]` underflows (and the
resulting slice panics) when the RDATA is shorter than 20 bytes; the two
names come from `parse_domain_name` on the leading slice and the five
`u32`s occupy the last 20 bytes. -/
def soaDecode (fuel : Nat) (raw rdata : List Nat) : PRes RDataType :=
  if rdata.length < 20 then .panicked
  else
    match parse_domain_name fuel raw (rdata.take (rdata.length - 20)) with
    | .ok list =>
      if list.length < 2 then .err
      else
        let o := rdata.length - 20
        .ok (.soa (Labels.encode_to_str (list.getD 0 []))
          (Labels.encode_to_str (list.getD 1 []))
          (be32 rdata o) (be32 rdata (o + 4)) (be32 rdata (o + 8))
          (be32 rdata (o + 12)) (be32 rdata (o + 16)))
    | .err => .err
    | .panicked => .panicked
    | .nofuel => .nofuel

/-- `A::decode`: exactly four octets are required; only the first four are
kept. -/
def aDecode (rdata : List Nat) : PRes RDataType :=
  if rdata.length < 4 then .err
  else .ok (.a (rdata.take 4))

/-- `WKS::decode`: address, protocol byte, and (as the source slices it,
`rdata[4..]`) a bitmap that retains the protocol byte. -/
def wksDecode (rdata : List Nat) : PRes RDataType :=
  if 5 > rdata.length then .err
  else .ok (.wks (rdata.take 4) (rdata.getD 4 0) (rdata.drop 4))

/-- `RDataType::from` from `dns/rdata/mod.rs`: dispatch on TYPE.  Note the
source dispatches `TYPE_MINFO` to `MG::from` (not `MInfo::from`), and any
TYPE outside the listed set fails with `ERR_RDATE_TYPE`. -/
def RDataType.from (fuel : Nat) (raw rdata : List Nat) (typ : Nat) :
    PRes RDataType :=
  if typ = TYPE_CNAME then
    PRes.bind (decodeSingleName fuel raw rdata) fun n => .ok (.cname n)
  else if typ = TYPE_HINFO then hinfoDecode fuel rdata
  else if typ = TYPE_MB then
    PRes.bind (decodeFirstName fuel raw rdata) fun n => .ok (.mb n)
  else if typ = TYPE_MD then
    PRes.bind (decodeFirstName fuel raw rdata) fun n => .ok (.md n)
  else if typ = TYPE_MF then
    PRes.bind (decodeFirstName fuel raw rdata) fun n => .ok (.mf n)
  else if typ = TYPE_MG then
    PRes.bind (decodeSingleName fuel raw rdata) fun n => .ok (.mg n)
  else if typ = TYPE_MINFO then
    PRes.bind (decodeSingleName fuel raw rdata) fun n => .ok (.mg n)
  else if typ = TYPE_MR then
    PRes.bind (decodeSingleName fuel raw rdata) fun n => .ok (.mr n)
  else if typ = TYPE_MX then mxDecode fuel raw rdata
  else if typ = TYPE_NULL then .ok (.null rdata)
  else if typ = TYPE_NS then
    PRes.bind (decodeFirstName fuel raw rdata) fun n => .ok (.ns n)
  else if typ = TYPE_PTR then
    PRes.bind (decodeSingleName fuel raw rdata) fun n => .ok (.ptr n)
  else if typ = TYPE_SOA then soaDecode fuel raw rdata
  else if typ = TYPE_TXT then .ok (.txt rdata)
  else if typ = TYPE_A then aDecode rdata
  else if typ = TYPE_WKS then wksDecode rdata
  else .err

end Rsdns

namespace Rsdns

/-- C5 counterexample: decoding the RDATA of a record with the
unsupported TYPE 17 does not succeed with the raw bytes stored — it
fails with the `not standard rdata type` error (there is no raw-bytes
variant in `RDataType`). -/
theorem rdata_unknown_type_17_errs :
    RDataType.from 10 [] [1, 2, 3] 17 = .err := by decide

/-- C5 amended: for every TYPE outside the supported set 1..=16 (OPT = 41
included), `RDataType::from` fails with the `not standard rdata type`
error; unknown TYPEs are not stored as raw bytes. -/
theorem rdata_unknown_type_errs (fuel : Nat) (raw rdata : List Nat) (typ : Nat)
    (h : typ = 0 ∨ 16 < typ) :
    RDataType.from fuel raw rdata typ = .err := by
  rw [RDataType.from]
  rw [if_neg (by simp [TYPE_CNAME]; omega), if_neg (by simp [TYPE_HINFO]; omega),
    if_neg (by simp [TYPE_MB]; omega), if_neg (by simp [TYPE_MD]; omega),
    if_neg (by simp [TYPE_MF]; omega), if_neg (by simp [TYPE_MG]; omega),
    if_neg (by simp [TYPE_MINFO]; omega), if_neg (by simp [TYPE_MR]; omega),
    if_neg (by simp [TYPE_MX]; omega), if_neg (by simp [TYPE_NULL]; omega),
    if_neg (by simp [TYPE_NS]; omega), if_neg (by simp [TYPE_PTR]; omega),
    if_neg (by simp [TYPE_SOA]; omega), if_neg (by simp [TYPE_TXT]; omega),
    if_neg (by simp [TYPE_A]; omega), if_neg (by simp [TYPE_WKS]; omega)]

/-- Witness for `rdata_unknown_type_errs` at TYPE 41 (OPT). -/
theorem rdata_unknown_type_errs_witness :
    ((41 : Nat) = 0 ∨ 16 < (41 : Nat)) ∧
      RDataType.from 10 [] [0, 0, 0, 0] 41 = .err :=
  ⟨Or.inr (by decide),
    rdata_unknown_type_errs 10 [] [0, 0, 0, 0] 41 (Or.inr (by decide))⟩

/-- C6: the source dispatches TYPE 14 (MINFO) to `MG::from`, so decoding
the RDATA `[1,'a',0,1,'b',0]` (names `a` then `b`) yields an `MG` value
holding only the first name, while `MInfo::decode` on the same bytes —
what the claim and `minfo.rs` describe — yields both `rmailbx = a` and
`emailbx = b`. -/
theorem minfo_rdata_dispatched_to_mg :
    RDataType.from 20 [] [1, 97, 0, 1, 98, 0] 14 = .ok (.mg [97]) ∧
      minfoDecode 20 [] [1, 97, 0, 1, 98, 0] = .ok (.minfo [97] [98]) := by
  decide

end Rsdns

namespace Rsdns

/-! ## Question, resource record and message decode
(`question.rs`, `rr.rs`, `dns.rs`). -/

/-- A question: qname labels plus QTYPE and QCLASS (`question.rs`). -/
structure Question where
  length : Nat
  qname : List Label
  qtype : Nat
  qclass : Nat
deriving DecidableEq, Repr

/-- Modelled from the spec (§4.3) and the in-repo single-argument
`Question::from`: the two-argument variant called by `DNS::from` (absent
from the sources) parses the qname at `pos` via the label codec, requires
four more bytes for QTYPE and QCLASS, and advances the offset past
them. -/
def Question.from (fuel : Nat) (raw : List Nat) (pos : Nat) :
    PRes (Question × Nat) :=
  match Labels.parse fuel raw pos [] with
  | .ok (lbs, pos1) =>
    if raw.length < pos1 + 4 then .err
    else
      .ok ({ length := pos1 + 4 - pos, qname := lbs,
             qtype := be16 raw pos1, qclass := be16 raw (pos1 + 2) }, pos1 + 4)
  | .err => .err
  | .panicked => .panicked
  | .nofuel => .nofuel

/-- A resource record (`rr.rs`), with its name stored as the dot-joined
string the source keeps. -/
structure RR where
  all_length : Nat := 0
  name : List Nat
  typ : Nat
  cls : Nat
  ttl : Nat
  rdlength : Nat
  rdata : RDataType
deriving DecidableEq, Repr

/-- `RR::from`: resolve a leading compression pointer (setting the
caller's `is_compressed` flag and advancing by two) or parse the name in
place; then TYPE, CLASS, TTL and RDLENGTH with bounds checks; then the
type-dispatched RDATA decode on exactly RDLENGTH bytes. -/
def RR.from (fuel : Nat) (raw : List Nat) (pos : Nat) (flag : Bool) :
    PRes (RR × Nat × Bool) :=
  if pos + 2 > raw.length then .err
  else
    let c := Util.is_compressed_wrap (raw.drop pos)
    let nameRes :=
      if c.2 then
        match Labels.parse fuel raw c.1 [] with
        | .ok (lbs, _) => PRes.ok (Labels.encode_to_str lbs, pos + 2, true)
        | .err => .err
        | .panicked => .panicked
        | .nofuel => .nofuel
      else
        match Labels.parse fuel raw pos [] with
        | .ok (lbs, pos1) => PRes.ok (Labels.encode_to_str lbs, pos1, flag)
        | .err => .err
        | .panicked => .panicked
        | .nofuel => .nofuel
    PRes.bind nameRes fun nr =>
      let name := nr.1
      let pos1 := nr.2.1
      let flag1 := nr.2.2
      if pos1 + 10 > raw.length then .err
      else
        let typ := be16 raw pos1
        let cls := be16 raw (pos1 + 2)
        let ttl := be32 raw (pos1 + 4)
        let rdlength := be16 raw (pos1 + 8)
        let pos2 := pos1 + 10
        if pos2 + rdlength > raw.length then .err
        else
          PRes.bind (RDataType.from fuel raw ((raw.drop pos2).take rdlength) typ)
            fun rd =>
              .ok ({ name := name, typ := typ, cls := cls, ttl := ttl,
                     rdlength := rdlength, rdata := rd }, pos2 + rdlength, flag1)

/-- The question-parsing loop of `DNS::from`: `qdcount` iterations of
`Question::from`, each appending one question. -/
def parseQuestions (fuel : Nat) (raw : List Nat) :
    Nat → Nat → List Question → PRes (List Question × Nat)
  | 0, pos, acc => .ok (acc, pos)
  | n + 1, pos, acc =>
    PRes.bind (Question.from fuel raw pos) fun qp =>
      parseQuestions fuel raw n qp.2 (acc ++ [qp.1])

/-- One RR-section loop of `DNS::from`: `count` iterations of `RR::from`,
threading the offset and the `is_compressed` flag. -/
def parseRRs (fuel : Nat) (raw : List Nat) :
    Nat → Nat → Bool → List RR → PRes (List RR × Nat × Bool)
  | 0, pos, flag, acc => .ok (acc, pos, flag)
  | n + 1, pos, flag, acc =>
    PRes.bind (RR.from fuel raw pos flag) fun rp =>
      parseRRs fuel raw n rp.2.1 rp.2.2 (acc ++ [rp.1])

/-- The decoded message (`dns.rs`): retained raw bytes, the observed
compression flag, the 12 header bytes and the four sections. -/
structure DNS where
  raw : List Nat
  is_compressed : Bool
  head : List Nat
  ques : List Question
  answers : List RR
  authority : List RR
  additional : List RR
deriving DecidableEq, Repr

/-- `DNS::from`: reject fewer than 12 bytes; take the header (the
two-argument `Header::from` is modelled from the spec as consuming the
first 12 bytes); parse `qdcount` questions; return early — with the three
RR sections empty — if the offset ran past the end; otherwise parse the
three RR sections in order. -/
def DNS.from (fuel : Nat) (raw : List Nat) : PRes DNS :=
  if raw.length < 12 then .err
  else
    let head := raw.take 12
    PRes.bind (parseQuestions fuel raw (Header.qdcount head) 12 []) fun qp =>
      let ques := qp.1
      let pos := qp.2
      if pos > raw.length then
        .ok { raw := raw, is_compressed := false, head := head, ques := ques,
              answers := [], authority := [], additional := [] }
      else
        PRes.bind (parseRRs fuel raw (Header.ancount head) pos false []) fun ap =>
          PRes.bind (parseRRs fuel raw (Header.nscount head) ap.2.1 ap.2.2 [])
            fun np =>
              PRes.bind (parseRRs fuel raw (Header.arcount head) np.2.1 np.2.2 [])
                fun rp =>
                  .ok { raw := raw, is_compressed := rp.2.2, head := head,
                        ques := ques, answers := ap.1, authority := np.1,
                        additional := rp.1 }

end Rsdns

namespace Rsdns

/-- C2: message decoding is not total — on the 23-byte message whose
single answer record has TYPE 15 (MX) and RDLENGTH 0, `DNS::from` reaches
`MX::decode`, whose `rdata[..2]` slice panics on the empty RDATA; the
decoder panics instead of returning an error. -/
theorem dns_from_mx_short_rdata_panics :
    DNS.from 100 [0, 0, 0, 0, 0, 0, 0, 1, 0, 0, 0, 0,
      0, 0, 15, 0, 1, 0, 0, 0, 0, 0, 0] = .panicked := by
  decide

/-- C3: the label decoder has no guard on a pointer's target offset.  A
self-pointer (`[192, 0]` at position 0, target offset 0 which is not
strictly less than the pointer's position) makes `Labels::parse` recurse
forever — modelled: it exhausts every amount of fuel — and a pointer
whose 14-bit target (2) is beyond its own position (0) is happily
followed and ACCEPTED; neither input produces the malformed-name error
the claim requires. -/
theorem labels_parse_pointer_no_guard :
    (∀ fuel : Nat, Labels.parse fuel [192, 0] 0 [] = .nofuel) ∧
      Labels.parse 10 [192, 2, 0] 0 [] = .ok ([], 0) := by
  constructor
  · intro fuel
    induction fuel with
    | zero => rfl
    | succ f ih =>
      rw [show Labels.parse (f + 1) [192, 0] 0 [] =
          (match Labels.parse f [192, 0] 0 [] with
           | .ok (lbs, _) => .ok (([] : List Label) ++ lbs, 0)
           | .err => .err
           | .panicked => .panicked
           | .nofuel => .nofuel) from rfl, ih]
  · decide

end Rsdns

namespace Rsdns

/-- A successful question parse leaves the offset within the buffer: the
QTYPE/QCLASS bounds check guarantees it. -/
theorem question_from_ok_le {fuel : Nat} {raw : List Nat} {pos : Nat}
    {q : Question} {pos' : Nat}
    (h : Question.from fuel raw pos = .ok (q, pos')) : pos' ≤ raw.length := by
  unfold Question.from at h
  cases hp : Labels.parse fuel raw pos [] with
  | ok p =>
    obtain ⟨lbs, pos1⟩ := p
    simp only [hp] at h
    by_cases hc : raw.length < pos1 + 4
    · rw [if_pos hc] at h
      exact PRes.noConfusion h
    · rw [if_neg hc] at h
      cases h
      omega
  | err => simp only [hp] at h <;> exact PRes.noConfusion h
  | panicked => simp only [hp] at h <;> exact PRes.noConfusion h
  | nofuel => simp only [hp] at h <;> exact PRes.noConfusion h

/-- The question loop parses exactly its count of questions and keeps the
offset within the buffer. -/
theorem parseQuestions_ok {fuel : Nat} {raw : List Nat} :
    ∀ (n pos : Nat) (acc qs : List Question) (pos' : Nat),
      pos ≤ raw.length →
      parseQuestions fuel raw n pos acc = .ok (qs, pos') →
      qs.length = acc.length + n ∧ pos' ≤ raw.length := by
  intro n
  induction n with
  | zero =>
    intro pos acc qs pos' hle h
    cases h
    simp [*]
  | succ k ih =>
    intro pos acc qs pos' hle h
    rw [parseQuestions] at h
    cases hq : Question.from fuel raw pos with
    | ok qp =>
      simp only [hq, PRes.bind] at h
      have h1 := ih qp.2 (acc ++ [qp.1]) qs pos' (question_from_ok_le
        (by rw [hq])) h
      simpa [Nat.add_comm, Nat.add_assoc, Nat.add_left_comm] using h1
    | err => simp only [hq, PRes.bind] at h <;> exact PRes.noConfusion h
    | panicked => simp only [hq, PRes.bind] at h <;> exact PRes.noConfusion h
    | nofuel => simp only [hq, PRes.bind] at h <;> exact PRes.noConfusion h

/-- Each RR-section loop parses exactly its count of records. -/
theorem parseRRs_ok {fuel : Nat} {raw : List Nat} :
    ∀ (n pos : Nat) (flag : Bool) (acc rrs : List RR) (pos' : Nat)
      (flag' : Bool),
      parseRRs fuel raw n pos flag acc = .ok (rrs, pos', flag') →
      rrs.length = acc.length + n := by
  intro n
  induction n with
  | zero =>
    intro pos flag acc rrs pos' flag' h
    cases h
    simp
  | succ k ih =>
    intro pos flag acc rrs pos' flag' h
    rw [parseRRs] at h
    cases hq : RR.from fuel raw pos flag with
    | ok rp =>
      simp only [hq, PRes.bind] at h
      have h1 := ih rp.2.1 rp.2.2 (acc ++ [rp.1]) rrs pos' flag' h
      simpa [Nat.add_comm, Nat.add_assoc, Nat.add_left_comm] using h1
    | err => simp only [hq, PRes.bind] at h <;> exact PRes.noConfusion h
    | panicked => simp only [hq, PRes.bind] at h <;> exact PRes.noConfusion h
    | nofuel => simp only [hq, PRes.bind] at h <;> exact PRes.noConfusion h

/-- C4: whenever `DNS::from` returns a message, the parsed question count
equals the header's qdcount and the three RR section lengths equal the
header's ancount, nscount and arcount.  (The early return after the
question loop cannot fire with nonzero counts: a successful question
parse always leaves the offset within the buffer.) -/
theorem dns_from_section_counts (fuel : Nat) (raw : List Nat) (m : DNS)
    (h : DNS.from fuel raw = .ok m) :
    m.ques.length = Header.qdcount m.head ∧
      m.answers.length = Header.ancount m.head ∧
      m.authority.length = Header.nscount m.head ∧
      m.additional.length = Header.arcount m.head := by
  unfold DNS.from at h
  by_cases h12 : raw.length < 12
  · rw [if_pos h12] at h
    exact PRes.noConfusion h
  rw [if_neg h12] at h
  cases hq : parseQuestions fuel raw (Header.qdcount (raw.take 12)) 12 [] with
  | ok qp =>
    obtain ⟨qs, pos⟩ := qp
    simp only [hq, PRes.bind] at h
    obtain ⟨hqlen, hqle⟩ := parseQuestions_ok _ 12 [] qs pos (by omega) hq
    rw [if_neg (by omega)] at h
    cases ha : parseRRs fuel raw (Header.ancount (raw.take 12)) pos false [] with
    | ok ap =>
      simp only [ha, PRes.bind] at h
      cases hn : parseRRs fuel raw (Header.nscount (raw.take 12)) ap.2.1 ap.2.2 [] with
      | ok np =>
        simp only [hn, PRes.bind] at h
        cases hr : parseRRs fuel raw (Header.arcount (raw.take 12)) np.2.1 np.2.2 [] with
        | ok rp =>
          simp only [hr, PRes.bind] at h
          have halen := parseRRs_ok _ pos false [] ap.1 ap.2.1 ap.2.2
            (by rw [ha])
          have hnlen := parseRRs_ok _ ap.2.1 ap.2.2 [] np.1 np.2.1 np.2.2
            (by rw [hn])
          have hrlen := parseRRs_ok _ np.2.1 np.2.2 [] rp.1 rp.2.1 rp.2.2
            (by rw [hr])
          cases h
          refine ⟨by simpa using hqlen, by simpa using halen,
            by simpa using hnlen, by simpa using hrlen⟩
        | err => simp only [hr, PRes.bind] at h <;> exact PRes.noConfusion h
        | panicked => simp only [hr, PRes.bind] at h <;> exact PRes.noConfusion h
        | nofuel => simp only [hr, PRes.bind] at h <;> exact PRes.noConfusion h
      | err => simp only [hn, PRes.bind] at h <;> exact PRes.noConfusion h
      | panicked => simp only [hn, PRes.bind] at h <;> exact PRes.noConfusion h
      | nofuel => simp only [hn, PRes.bind] at h <;> exact PRes.noConfusion h
    | err => simp only [ha, PRes.bind] at h <;> exact PRes.noConfusion h
    | panicked => simp only [ha, PRes.bind] at h <;> exact PRes.noConfusion h
    | nofuel => simp only [ha, PRes.bind] at h <;> exact PRes.noConfusion h
  | err => simp only [hq, PRes.bind] at h <;> exact PRes.noConfusion h
  | panicked => simp only [hq, PRes.bind] at h <;> exact PRes.noConfusion h
  | nofuel => simp only [hq, PRes.bind] at h <;> exact PRes.noConfusion h

/-- Witness for `dns_from_section_counts` on the all-zero 12-byte
header. -/
theorem dns_from_section_counts_witness :
    DNS.from 5 (List.replicate 12 0) =
      .ok { raw := List.replicate 12 0, is_compressed := false,
            head := List.replicate 12 0, ques := [], answers := [],
            authority := [], additional := [] } ∧
    (({ raw := List.replicate 12 0, is_compressed := false,
        head := List.replicate 12 0, ques := [], answers := [],
        authority := [], additional := [] } : DNS).ques.length =
        Header.qdcount (List.replicate 12 0) ∧
      ({ raw := List.replicate 12 0, is_compressed := false,
         head := List.replicate 12 0, ques := [], answers := [],
         authority := [], additional := [] } : DNS).answers.length =
        Header.ancount (List.replicate 12 0) ∧
      ({ raw := List.replicate 12 0, is_compressed := false,
         head := List.replicate 12 0, ques := [], answers := [],
         authority := [], additional := [] } : DNS).authority.length =
        Header.nscount (List.replicate 12 0) ∧
      ({ raw := List.replicate 12 0, is_compressed := false,
         head := List.replicate 12 0, ques := [], answers := [],
         authority := [], additional := [] } : DNS).additional.length =
        Header.arcount (List.replicate 12 0)) :=
  ⟨by decide, dns_from_section_counts 5 (List.replicate 12 0) _ (by decide)⟩

end Rsdns

namespace Rsdns

/-! ## Encoding: compression index (`compress_list.rs`), name encoding
(`rdata/mod.rs`) and message encoding (`dns.rs`).

Where the RDATA files carry stale `encode` signatures from an older
snapshot of the crate, the encoders are modelled against the current
`RDataOperation` trait of `rdata/mod.rs` and `RR::encode` in `rr.rs`:
each encoder appends its bytes and its byte count is what `RR::encode`
backpatches into RDLENGTH. -/

/-- `slice::binary_search_by`, ported with explicit fuel equal to the
interval width (the interval shrinks by at least one per iteration, so
the port is extensionally the std loop). -/
def bsGo {α : Type} (f : α → Ordering) (l : List α) (d : α) :
    Nat → Nat → Nat → Except Nat Nat
  | 0, left, _ => .error left
  | fuel + 1, left, right =>
    if left < right then
      match f (l.getD (left + (right - left) / 2) d) with
      | .lt => bsGo f l d fuel (left + (right - left) / 2 + 1) right
      | .gt => bsGo f l d fuel left (left + (right - left) / 2)
      | .eq => .ok (left + (right - left) / 2)
    else .error left

/-- `binary_search_by` over a whole list. -/
def binary_search_by {α : Type} (f : α → Ordering) (l : List α) (d : α) :
    Except Nat Nat :=
  bsGo f l d l.length 0 l.length

/-- Lexicographic byte-string comparison: Rust's `Ord` on `String` /
`Vec<u8>`. -/
def cmpBytes : List Nat → List Nat → Ordering
  | [], [] => .eq
  | [], _ :: _ => .lt
  | _ :: _, [] => .gt
  | a :: as, b :: bs =>
    match compare a b with
    | .eq => cmpBytes as bs
    | o => o

/-- Rust `str::split('.')`: empty parts are kept and the empty string
splits to one empty part. -/
def splitDot : List Nat → List (List Nat)
  | [] => [[]]
  | c :: cs =>
    if c == 46 then [] :: splitDot cs
    else
      match splitDot cs with
      | h :: t => (c :: h) :: t
      | [] => [[c]]

/-- `slice::windows(i)` over the label list. -/
def windows (i : Nat) (col : List (List Nat)) : List (List (List Nat)) :=
  (List.range (col.length + 1 - i)).map fun j => (col.drop j).take i

/-- `FindSubstring::find_substring`: index of the first occurrence of
`sub` in the haystack. -/
def findSubAux (sub : List Nat) : List Nat → Nat → Option Nat
  | [], idx => if sub.isPrefixOf ([] : List Nat) then some idx else none
  | h :: t, idx =>
    if sub.isPrefixOf (h :: t) then some idx else findSubAux sub t (idx + 1)

/-- First occurrence of `sub` inside `hay`. -/
def find_substring (hay sub : List Nat) : Option Nat := findSubAux sub hay 0

/-- `CompressList`: (domain, offset) pairs. -/
abbrev CompressList := List (List Nat × Nat)

/-- `CompressList::sort`: stable sort by decreasing domain length
(`b.0.len().cmp(&a.0.len())`). -/
def CompressList.sortLen (cl : CompressList) : CompressList :=
  List.insertionSort (fun a b => b.1.length ≤ a.1.length) cl

/-- `CompressList::get`: binary search by domain string over the
length-sorted vector (as in the source, the comparator does not match the
sort order, so lookups may miss — ported verbatim). -/
def CompressList.get (cl : CompressList) (domain : List Nat) :
    Option (List Nat × Nat) :=
  match binary_search_by (fun p => cmpBytes p.1 domain) cl ([], 0) with
  | .ok pos => some (cl.getD pos ([], 0))
  | .error _ => none

/-- One inner step of `CompressList::push`: offer one label window. -/
def CompressList.pushOne (domain : List Nat) (offset : Nat)
    (cl : CompressList) (w : List (List Nat)) : CompressList :=
  let sub := Labels.encode_to_str w
  let subOff := offset + (find_substring domain sub).getD 0
  match CompressList.get cl sub with
  | some _ => cl
  | none => CompressList.sortLen (cl ++ [(sub, subOff)])

/-- `CompressList::push`: offer every label window of every width, in
width order, re-sorting after each insertion. -/
def CompressList.push (cl : CompressList) (domain : List Nat)
    (offset : Nat) : CompressList :=
  let col := splitDot domain
  (List.range col.length).foldl
    (fun acc i => (windows (i + 1) col).foldl
      (CompressList.pushOne domain offset) acc) cl

/-- `encode_domain_name`: length-prefixed labels plus the zero
terminator. -/
def encode_domain_name (domain : List Nat) : List Nat :=
  ((splitDot domain).foldl (fun r part => r ++ [part.length % 256] ++ part) [])
    ++ [0]

/-- The local `encode` closure of `encode_domain_name_wrap`: labels up to
the first empty part, WITHOUT a terminator. -/
def encodeUntilEmpty : List (List Nat) → List Nat
  | [] => []
  | p :: ps =>
    if p.length == 0 then []
    else ([p.length % 256] ++ p) ++ encodeUntilEmpty ps

/-- The entry scan of `encode_domain_name_wrap`: find the first
compression-index entry that occurs in the domain, passes the length and
dot-boundary guards, and build prefix ++ pointer ++ suffix. -/
def wrapMatch (domain : List Nat) : List (List Nat × Nat) → Option (List Nat)
  | [] => none
  | (sub, off) :: rest =>
    match find_substring domain sub with
    | some pos =>
      if sub.length ≤ 2 then wrapMatch domain rest
      else if (pos ≠ 0 ∧ domain.getD (pos - 1) 0 ≠ 46) ∨
          (pos + sub.length + 1 < domain.length ∧
            domain.getD (pos + sub.length + 1) 0 ≠ 46) then
        wrapMatch domain rest
      else
        some ((if pos ≠ 0 then encodeUntilEmpty (splitDot (domain.take pos))
            else []) ++
          [((off % 65536) / 256) ||| 192, off % 256] ++
          (if (domain.drop (pos + sub.length)).length ≠ 0 then
            encodeUntilEmpty (splitDot (domain.drop (pos + sub.length))) ++ [0]
          else []))
    | none => wrapMatch domain rest

/-- `encode_domain_name_wrap`: plain encoding when compression is off;
otherwise use the first matching index entry as a pointer, and register
the domain (and its label windows) at `raw_offset`. -/
def encode_domain_name_wrap (domain : List Nat) (cl : CompressList)
    (is_compressed : Bool) (raw_offset : Nat) : List Nat × CompressList :=
  if !is_compressed then (encode_domain_name domain, cl)
  else
    match wrapMatch domain cl with
    | some bytes => (bytes, CompressList.push cl domain raw_offset)
    | none => (encode_domain_name domain, CompressList.push cl domain raw_offset)

/-- Modelled from the spec (§4.3, §4.6): `Questions::encode` (absent from
the sources) writes each question's qname through the compression index —
seeding it for later pointers — followed by QTYPE and QCLASS. -/
def Questions.encode (qs : List Question) (raw : List Nat)
    (cl : CompressList) : List Nat × CompressList :=
  qs.foldl
    (fun acc q =>
      let r := encode_domain_name_wrap (Labels.encode_to_str q.qname) acc.2
        true acc.1.length
      (acc.1 ++ r.1 ++ beBytes2 q.qtype ++ beBytes2 q.qclass, r.2))
    (raw, cl)

/-- `RDataType::encode` dispatch: each variant's appended bytes plus the
updated compression index; `rawLen` is the buffer length at which the
bytes will land (used for pointer registration). -/
def RDataType.encode (rd : RDataType) (rawLen : Nat) (cl : CompressList)
    (isC : Bool) : PRes (List Nat × CompressList) :=
  match rd with
  | .rnone => .err
  | .cname n => .ok (encode_domain_name_wrap n cl isC rawLen)
  | .mb n => .ok (encode_domain_name_wrap n cl isC rawLen)
  | .md n => .ok (encode_domain_name_wrap n cl isC rawLen)
  | .mf n => .ok (encode_domain_name_wrap n cl isC rawLen)
  | .mg n => .ok (encode_domain_name_wrap n cl isC rawLen)
  | .mr n => .ok (encode_domain_name_wrap n cl isC rawLen)
  | .ns n => .ok (encode_domain_name_wrap n cl isC rawLen)
  | .ptr n => .ok (encode_domain_name_wrap n cl isC rawLen)
  | .minfo r e =>
    let r1 := encode_domain_name_wrap r cl isC rawLen
    let r2 := encode_domain_name_wrap e r1.2 isC (rawLen + r1.1.length)
    .ok (r1.1 ++ r2.1, r2.2)
  | .mx pref ex =>
    let r := encode_domain_name_wrap ex cl isC (rawLen + 2)
    .ok (beBytes2 pref ++ r.1, r.2)
  | .null d => .ok (d, cl)
  | .txt s => .ok (s, cl)
  | .a oct => .ok (oct, cl)
  | .wks addr proto bm => .ok (addr ++ [proto % 256] ++ bm, cl)
  | .hinfo _ cpu os =>
    .ok ([cpu.length % 256] ++ cpu ++ [os.length % 256] ++ os, cl)
  | .soa mn rn serial refresh retry expire minimum =>
    let w1 := encode_domain_name_wrap mn cl isC rawLen
    let w2 := encode_domain_name_wrap rn w1.2 isC (rawLen + w1.1.length)
    .ok (w1.1 ++ w2.1 ++ beBytes4 serial ++ beBytes4 refresh ++
      beBytes4 retry ++ beBytes4 expire ++ beBytes4 minimum, w2.2)

/-- `RR::encode`: name through the index, TYPE, CLASS, TTL, a two-byte
RDLENGTH placeholder, the RDATA bytes, and the backpatched RDLENGTH (the
RDATA byte count as `u16`). -/
def RR.encode (rr : RR) (raw : List Nat) (cl : CompressList) (isC : Bool) :
    PRes (List Nat × CompressList) :=
  let w := encode_domain_name_wrap rr.name cl isC raw.length
  let raw1 := raw ++ w.1 ++ beBytes2 rr.typ ++ beBytes2 rr.cls ++
    beBytes4 rr.ttl
  PRes.bind (RDataType.encode rr.rdata (raw1.length + 2) w.2 isC) fun rb =>
    .ok (raw1 ++ beBytes2 (rb.1.length % 65536) ++ rb.1, rb.2)

/-- `RRs::encode`: each record in order, threading buffer and index. -/
def RRs.encode (rrs : List RR) (raw : List Nat) (cl : CompressList)
    (isC : Bool) : PRes (List Nat × CompressList) :=
  match rrs with
  | [] => .ok (raw, cl)
  | r :: rest =>
    PRes.bind (RR.encode r raw cl isC) fun rc =>
      RRs.encode rest rc.1 rc.2 isC

/-- `DNS::encode`: recompute the four header counts from the section
lengths, emit the header, then questions and the three RR sections
through a fresh compression index. -/
def DNS.encode (m : DNS) (isC : Bool) : PRes (List Nat) :=
  let head1 := Header.with_arcount
    (Header.with_nscount
      (Header.with_ancount
        (Header.with_qdcount m.head m.ques.length) m.answers.length)
      m.authority.length) m.additional.length
  let q := Questions.encode m.ques head1 []
  PRes.bind (RRs.encode m.answers q.1 q.2 isC) fun a =>
    PRes.bind (RRs.encode m.authority a.1 a.2 isC) fun n =>
      PRes.bind (RRs.encode m.additional n.1 n.2 isC) fun r => .ok r.1

/-- `PseudoRR::rcode` (`pseudo_rr.rs`): 0 unless TYPE=OPT; otherwise the
extended-RCODE byte (the most significant TTL byte) is split — its low
nibble is OR-ed above the header RCODE, its high nibble becomes the high
byte — and the two bytes are read back as a `u16`. -/
def PseudoRR.rcode (rr : RR) (head_rcode : Nat) : Nat :=
  if rr.typ ≠ TYPE_OPT then 0
  else
    (((rr.ttl % 4294967296) / 16777216) >>> 4) * 256 +
      (head_rcode ||| ((((rr.ttl % 4294967296) / 16777216) &&& 15) <<< 4))

end Rsdns

namespace Rsdns

/-- The fifth `test_dns_from` vector: a real baidu.com A response with
one question and two answers whose names are the pointer `192 12`
(27 + 16 + 16 = 59 bytes, all consumed by the parse). -/
def baiduAResponse : List Nat :=
  [160, 247, 129, 128, 0, 1, 0, 2, 0, 0, 0, 0, 5, 98, 97, 105, 100, 117, 3, 99,
   111, 109, 0, 0, 1, 0, 1, 192, 12, 0, 1, 0, 1, 0, 0, 1, 49, 0, 4, 110, 242,
   68, 66, 192, 12, 0, 1, 0, 1, 0, 0, 1, 49, 0, 4, 39, 156, 66, 10]

/-- A 28-byte message (qdcount 0, ancount 1, all consumed by the parse)
whose answer's NAME is the pointer `192 0`: it resolves at offset 0 to an
empty name, which re-encodes as `0 0` instead of the pointer bytes. -/
def ptrToHeaderMessage : List Nat :=
  [0, 0, 0, 0, 0, 0, 0, 1, 0, 0, 0, 0, 192, 0, 0, 1, 0, 1, 0, 0, 0, 0, 0, 4,
   1, 2, 3, 4]

/-- C1 counterexample: `ptrToHeaderMessage` parses successfully with the
compression flag observed (first component `true`), the parse consumes
all 28 bytes, yet re-encoding with compression enabled does NOT
reproduce the input (second component `false`): the encoder writes the
resolved empty name `0 0` where the input held the pointer `192 0`, so
the output differs from the input within the consumed length. -/
theorem dns_roundtrip_counterexample :
    PRes.bind (DNS.from 100 ptrToHeaderMessage) (fun m =>
      PRes.ok (m.is_compressed,
        decide (DNS.encode m true = .ok ptrToHeaderMessage))) =
      .ok (true, false) := by
  decide

/-- C1 amended, positive part: on the repository's captured real-world
compressed response `baiduAResponse`, the parse observes compression and
re-encoding with compression enabled reproduces the input bytes exactly
(the parse consumes all 59 bytes). -/
theorem dns_roundtrip_real_response :
    PRes.bind (DNS.from 200 baiduAResponse) (fun m =>
      PRes.ok (m.is_compressed,
        decide (DNS.encode m true = .ok baiduAResponse))) =
      .ok (true, true) := by
  decide

end Rsdns

namespace Rsdns

/-- C9: for a TYPE=41 (OPT) record with any 32-bit TTL and any header
RCODE below 16, the overlay's `rcode` accessor returns the 12-bit
effective RCODE `e * 16 + h`, where `e` is the most significant byte of
the TTL: the extended bits form the high eight bits of the result. -/
theorem pseudo_rr_effective_rcode (rr : RR) (h : Nat) (ht : rr.typ = 41)
    (httl : rr.ttl < 4294967296) (hh : h < 16) :
    PseudoRR.rcode rr h = (rr.ttl / 16777216) * 16 + h := by
  have key : ∀ e < 256, ∀ hc < 16,
      (e >>> 4) * 256 + (hc ||| ((e &&& 15) <<< 4)) = e * 16 + hc := by decide
  rw [PseudoRR.rcode, if_neg (by simp [ht, TYPE_OPT]),
    Nat.mod_eq_of_lt httl]
  exact key (rr.ttl / 16777216) (by omega) h hh

/-- The OPT record of `test_pseudo_rr_rcode` with TTL `u32::MAX / 2`. -/
def optTestRR : RR :=
  { name := [], typ := 41, cls := 0, ttl := 2147483647, rdlength := 0,
    rdata := .rnone }

/-- Witness for `pseudo_rr_effective_rcode`: on `optTestRR` with header
RCODE 12 the effective RCODE is 2044 = 127 * 16 + 12, matching the
repository's `test_pseudo_rr_rcode`. -/
theorem pseudo_rr_effective_rcode_witness :
    (optTestRR.typ = 41 ∧ optTestRR.ttl < 4294967296 ∧ 12 < 16) ∧
      PseudoRR.rcode optTestRR 12 = (optTestRR.ttl / 16777216) * 16 + 12 :=
  ⟨⟨by decide, by decide, by decide⟩,
    pseudo_rr_effective_rcode optTestRR 12 (by decide) (by decide) (by decide)⟩

end Rsdns

namespace Rsdns

/-! ## Domain trie (`components/name_server/zones/domain_tree.rs`).

A domain string is represented by its `rsplitn`-order label list: the
most significant (rightmost) label first, so `"a.b.c"` is `["c", "b",
"a"]` and a dot-free domain is a one-element list.  `Rc<RefCell<RR>>`
sharing is modelled by the record value.  Rust's `String::cmp` is
byte-lexicographic on UTF-8, which coincides with Lean's `String` linear
order. -/

/-- Rust's `Ord::cmp` on strings. -/
def strCmp (a b : String) : Ordering :=
  if a < b then .lt else if a = b then .eq else .gt

/-- A trie node: owner label, children, optional record. -/
inductive DomainTree where
  | node (owner : String) (leaves : List DomainTree) (rr : Option RR)

/-- Owner label of a node. -/
def DomainTree.owner : DomainTree → String
  | .node o _ _ => o

/-- Children of a node. -/
def DomainTree.leaves : DomainTree → List DomainTree
  | .node _ l _ => l

/-- Record attached to a node. -/
def DomainTree.rr : DomainTree → Option RR
  | .node _ _ r => r

instance : Inhabited DomainTree := ⟨.node "" [] none⟩

/-- `DomainTree::new`: the root node with owner `"."`. -/
def DomainTree.new : DomainTree := .node "." [] none

/-- `sort_by(|a, b| a.owner.cmp(&b.owner))`: a stable ascending sort of
the sibling vector. -/
def sortLeaves (l : List DomainTree) : List DomainTree :=
  List.insertionSort (fun a b => a.owner ≤ b.owner) l

/-- The `binary_search_by(|probe| probe.owner.cmp(&key))` every trie
operation performs on a sibling vector. -/
def leafSearch (key : String) (l : List DomainTree) : Except Nat Nat :=
  binary_search_by (fun probe => strCmp probe.owner key) l default

/-- `DomainTree::push`: a dot-free domain is appended (unconditionally)
and the siblings re-sorted; otherwise descend into the child matching the
most significant label, creating and sorting a fresh chain when the
search misses. -/
def DomainTree.push : DomainTree → List String → DomainTree
  | t, [] => t
  | t, [d] => .node t.owner (sortLeaves (t.leaves ++ [.node d [] none])) t.rr
  | t, first :: rest =>
    match leafSearch first t.leaves with
    | .ok pos =>
      .node t.owner (t.leaves.set pos ((t.leaves.getD pos default).push rest))
        t.rr
    | .error _ =>
      .node t.owner
        (sortLeaves (t.leaves ++ [(DomainTree.node first [] none).push rest]))
        t.rr

/-- `DomainTree::set_rr`: walk the same path and overwrite the `rr` of
the found node; a missed search is a silent no-op. -/
def DomainTree.set_rr : DomainTree → List String → RR → DomainTree
  | t, [], _ => t
  | t, [d], r =>
    match leafSearch d t.leaves with
    | .ok pos =>
      .node t.owner
        (t.leaves.set pos
          (.node (t.leaves.getD pos default).owner
            (t.leaves.getD pos default).leaves (some r))) t.rr
    | .error _ => t
  | t, first :: rest, r =>
    match leafSearch first t.leaves with
    | .ok pos =>
      .node t.owner
        (t.leaves.set pos ((t.leaves.getD pos default).set_rr rest r)) t.rr
    | .error _ => t

/-- `DomainTree::get_rr`: walk the path; at the last label return the
record if the found node's owner matches and a record is present. -/
def DomainTree.get_rr : DomainTree → List String → Option RR
  | _, [] => none
  | t, [d] =>
    match leafSearch d t.leaves with
    | .ok pos =>
      if (t.leaves.getD pos default).owner = d ∧
          (t.leaves.getD pos default).rr.isSome then
        (t.leaves.getD pos default).rr
      else none
    | .error _ => none
  | t, first :: rest =>
    match leafSearch first t.leaves with
    | .ok pos => (t.leaves.getD pos default).get_rr rest
    | .error _ => none

/-- The representation invariant every tree reachable through the public
API satisfies: every sibling vector is sorted by owner (each append is
followed by `sort_by`). -/
inductive SortedTree : DomainTree → Prop where
  | node : ∀ (o : String) (l : List DomainTree) (r : Option RR),
      l.Pairwise (fun a b => a.owner ≤ b.owner) →
      (∀ c ∈ l, SortedTree c) →
      SortedTree (.node o l r)

end Rsdns

namespace Rsdns

theorem strCmp_eq_iff (a b : String) : strCmp a b = .eq ↔ a = b := by
  unfold strCmp
  split_ifs with h1 h2
  · simp only [reduceCtorEq, false_iff]
    exact fun he => absurd (he ▸ h1) (lt_irrefl b)
  · simp [h2]
  · simp only [reduceCtorEq, false_iff]
    exact h2

theorem strCmp_lt_iff (a b : String) : strCmp a b = .lt ↔ a < b := by
  unfold strCmp
  split_ifs with h1 h2 <;> simp [h1]

theorem strCmp_gt_iff (a b : String) : strCmp a b = .gt ↔ b < a := by
  unfold strCmp
  split_ifs with h1 h2
  · simp only [reduceCtorEq, false_iff]
    exact fun hba => absurd (lt_trans h1 hba) (lt_irrefl a)
  · simp only [reduceCtorEq, false_iff]
    exact fun hba => absurd (h2 ▸ hba) (lt_irrefl a)
  · simp only [true_iff]
    rcases lt_trichotomy a b with h | h | h
    · exact absurd h h1
    · exact absurd h h2
    · exact h

theorem getD_set_self' {α : Type} (l : List α) (i : Nat) (x d : α)
    (hi : i < l.length) : (l.set i x).getD i d = x := by
  simp [List.getD_eq_getElem?_getD, List.getElem?_set_self, hi]

theorem getD_set_ne' {α : Type} (l : List α) (i j : Nat) (x d : α)
    (hij : i ≠ j) : (l.set i x).getD j d = l.getD j d := by
  simp [List.getD_eq_getElem?_getD, List.getElem?_set_ne hij]

theorem getD_mem {α : Type} (l : List α) (i : Nat) (d : α)
    (hi : i < l.length) : l.getD i d ∈ l := by
  rw [List.getD_eq_getElem?_getD, List.getElem?_eq_getElem hi]
  exact List.getElem_mem hi

theorem mem_exists_getD {α : Type} (l : List α) (a : α) (d : α)
    (ha : a ∈ l) : ∃ j, j < l.length ∧ l.getD j d = a := by
  obtain ⟨n, hn⟩ := List.mem_iff_get.mp ha
  exact ⟨n.1, n.2, by rw [List.getD_eq_getElem?_getD,
    List.getElem?_eq_getElem n.2]; simpa using hn⟩

/-- Only the intermediate comparisons matter: two searches whose
comparator values agree index-by-index take identical paths. -/
theorem bsGo_congr {α β : Type} (f : α → Ordering) (g : β → Ordering)
    (l : List α) (m : List β) (d : α) (e : β)
    (hfg : ∀ i, f (l.getD i d) = g (m.getD i e)) :
    ∀ fuel left right, bsGo f l d fuel left right = bsGo g m e fuel left right := by
  intro fuel
  induction fuel with
  | zero => intro left right; rfl
  | succ k ih =>
    intro left right
    rw [bsGo, bsGo]
    by_cases hlr : left < right
    · rw [if_pos hlr, if_pos hlr, hfg (left + (right - left) / 2)]
      cases g (m.getD (left + (right - left) / 2) e) <;> simp [ih]
    · rw [if_neg hlr, if_neg hlr]

/-- Soundness of the binary-search port: an `ok` index lies in the
interval and its comparator value is `eq`. -/
theorem bsGo_ok {α : Type} (f : α → Ordering) (l : List α) (d : α) :
    ∀ fuel left right i, bsGo f l d fuel left right = .ok i →
      left ≤ i ∧ i < right ∧ f (l.getD i d) = .eq := by
  intro fuel
  induction fuel with
  | zero => intro left right i h; exact Except.noConfusion h
  | succ k ih =>
    intro left right i h
    rw [bsGo] at h
    by_cases hlr : left < right
    · rw [if_pos hlr] at h
      cases hc : f (l.getD (left + (right - left) / 2) d) with
      | lt =>
        rw [hc] at h
        obtain ⟨h1, h2, h3⟩ := ih _ _ _ h
        exact ⟨by omega, h2, h3⟩
      | gt =>
        rw [hc] at h
        obtain ⟨h1, h2, h3⟩ := ih _ _ _ h
        exact ⟨by omega, by omega, h3⟩
      | eq =>
        rw [hc] at h
        cases h
        refine ⟨by omega, by omega, hc⟩
    · rw [if_neg hlr] at h
      exact Except.noConfusion h

/-- Monotonicity of a sorted sibling vector, in `getD` form. -/
theorem pairwise_getD_mono {α : Type} (g : α → String) (l : List α) (d : α)
    (hs : l.Pairwise (fun a b => g a ≤ g b)) (i j : Nat) (hij : i < j)
    (hj : j < l.length) : g (l.getD i d) ≤ g (l.getD j d) := by
  have hi : i < l.length := lt_trans hij hj
  rw [List.getD_eq_getElem?_getD, List.getElem?_eq_getElem hi,
    List.getD_eq_getElem?_getD, List.getElem?_eq_getElem hj]
  have := List.pairwise_iff_get.mp hs ⟨i, hi⟩ ⟨j, hj⟩ hij
  simpa using this

/-- Completeness of the binary-search port on a sorted vector: if some
index in the interval carries the key, the search succeeds. -/
theorem bsGo_finds {α : Type} (g : α → String) (k : String) (l : List α)
    (d : α) (hs : l.Pairwise (fun a b => g a ≤ g b)) (j : Nat)
    (hj : j < l.length) (hk : g (l.getD j d) = k) :
    ∀ fuel left right, right - left ≤ fuel → left ≤ j → j < right →
      right ≤ l.length →
      ∃ i, bsGo (fun a => strCmp (g a) k) l d fuel left right = .ok i := by
  intro fuel
  induction fuel with
  | zero => intro left right hfl hlj hjr hrl; omega
  | succ m ih =>
    intro left right hfl hlj hjr hrl
    have hlr : left < right := by omega
    have hmid : left + (right - left) / 2 < right := by omega
    cases hc : strCmp (g (l.getD (left + (right - left) / 2) d)) k with
    | eq =>
      refine ⟨left + (right - left) / 2, ?_⟩
      rw [bsGo, if_pos hlr, hc]
    | lt =>
      have hmj : left + (right - left) / 2 < j := by
        by_contra hmj
        push_neg at hmj
        rcases Nat.lt_or_ge j (left + (right - left) / 2) with hlt | hge
        · have := pairwise_getD_mono g l d hs j _ hlt (by omega)
          rw [hk] at this
          have hlt2 := (strCmp_lt_iff _ _).mp hc
          exact absurd (lt_of_le_of_lt this hlt2) (lt_irrefl k)
        · have hjm : j = left + (right - left) / 2 := by omega
          rw [← hjm, hk] at hc
          rw [(strCmp_eq_iff k k).mpr rfl] at hc
          exact Ordering.noConfusion hc
      obtain ⟨i, hi⟩ := ih (left + (right - left) / 2 + 1) right (by omega)
        (by omega) hjr hrl
      refine ⟨i, ?_⟩
      rw [bsGo, if_pos hlr, hc]
      exact hi
    | gt =>
      have hjm : j < left + (right - left) / 2 := by
        by_contra hjm
        push_neg at hjm
        rcases Nat.lt_or_ge (left + (right - left) / 2) j with hlt | hge
        · have := pairwise_getD_mono g l d hs _ j hlt hj
          rw [hk] at this
          have hgt2 := (strCmp_gt_iff _ _).mp hc
          exact absurd (lt_of_lt_of_le hgt2 this) (lt_irrefl k)
        · have hjm2 : j = left + (right - left) / 2 := by omega
          rw [← hjm2, hk] at hc
          rw [(strCmp_eq_iff k k).mpr rfl] at hc
          exact Ordering.noConfusion hc
      obtain ⟨i, hi⟩ := ih left (left + (right - left) / 2) (by omega)
        hlj hjm (by omega)
      refine ⟨i, ?_⟩
      rw [bsGo, if_pos hlr, hc]
      exact hi

/-- Completeness at the list level. -/
theorem binary_search_finds {α : Type} (g : α → String) (k : String)
    (l : List α) (d : α) (hs : l.Pairwise (fun a b => g a ≤ g b)) (j : Nat)
    (hj : j < l.length) (hk : g (l.getD j d) = k) :
    ∃ i, bsGo (fun a => strCmp (g a) k) l d l.length 0 l.length = .ok i :=
  bsGo_finds g k l d hs j hj hk l.length 0 l.length (by omega) (by omega) hj
    (le_refl _)

end Rsdns

namespace Rsdns

@[simp] theorem DomainTree.owner_node (o : String) (l : List DomainTree)
    (r : Option RR) : (DomainTree.node o l r).owner = o := rfl

@[simp] theorem DomainTree.leaves_node (o : String) (l : List DomainTree)
    (r : Option RR) : (DomainTree.node o l r).leaves = l := rfl

@[simp] theorem DomainTree.rr_node (o : String) (l : List DomainTree)
    (r : Option RR) : (DomainTree.node o l r).rr = r := rfl

instance : IsTotal DomainTree (fun a b => a.owner ≤ b.owner) :=
  ⟨fun a b => le_total a.owner b.owner⟩

instance : IsTrans DomainTree (fun a b => a.owner ≤ b.owner) :=
  ⟨fun _ _ _ hab hbc => le_trans hab hbc⟩

theorem sortLeaves_pairwise (l : List DomainTree) :
    (sortLeaves l).Pairwise (fun a b => a.owner ≤ b.owner) :=
  List.sorted_insertionSort _ l

theorem mem_sortLeaves {a : DomainTree} {l : List DomainTree} :
    a ∈ sortLeaves l ↔ a ∈ l :=
  (List.perm_insertionSort _ l).mem_iff

theorem push_owner (t : DomainTree) (x : List String) :
    (t.push x).owner = t.owner := by
  cases x with
  | nil => rfl
  | cons first rest =>
    cases rest with
    | nil => rfl
    | cons s rest2 =>
      simp only [DomainTree.push]
      cases leafSearch first t.leaves <;> rfl

theorem set_rr_owner (t : DomainTree) (x : List String) (r : RR) :
    (t.set_rr x r).owner = t.owner := by
  cases x with
  | nil => rfl
  | cons first rest =>
    cases rest with
    | nil =>
      simp only [DomainTree.set_rr]
      cases leafSearch first t.leaves <;> rfl
    | cons s rest2 =>
      simp only [DomainTree.set_rr]
      cases leafSearch first t.leaves <;> rfl

theorem leafSearch_congr (key : String) (l : List DomainTree) (pos : Nat)
    (x : DomainTree) (hpos : pos < l.length)
    (hOwn : x.owner = (l.getD pos default).owner) :
    leafSearch key (l.set pos x) = leafSearch key l := by
  unfold leafSearch binary_search_by
  rw [List.length_set]
  exact bsGo_congr _ _ _ _ _ _
    (fun i => by
      by_cases hip : pos = i
      · subst hip
        rw [getD_set_self' _ _ _ _ hpos, hOwn]
      · rw [getD_set_ne' _ _ _ _ _ hip]) _ _ _

theorem leafSearch_err_no_match (key : String) (l : List DomainTree)
    (hp : l.Pairwise (fun a b => a.owner ≤ b.owner)) (e : Nat)
    (herr : leafSearch key l = .error e) :
    ∀ a ∈ l, a.owner ≠ key := by
  intro a ha hak
  obtain ⟨j, hj, hgd⟩ := mem_exists_getD l a default ha
  obtain ⟨i, hi⟩ := binary_search_finds DomainTree.owner key l default hp j hj
    (by rw [hgd]; exact hak)
  rw [show leafSearch key l =
    bsGo (fun a => strCmp a.owner key) l default l.length 0 l.length from rfl]
    at herr
  rw [herr] at hi
  exact Except.noConfusion hi

theorem leafSearch_finds_owner (key : String) (l : List DomainTree)
    (hp : l.Pairwise (fun a b => a.owner ≤ b.owner)) (a : DomainTree)
    (ha : a ∈ l) (hak : a.owner = key) :
    ∃ pos, leafSearch key l = .ok pos ∧ pos < l.length ∧
      (l.getD pos default).owner = key := by
  obtain ⟨j, hj, hgd⟩ := mem_exists_getD l a default ha
  obtain ⟨i, hi⟩ := binary_search_finds DomainTree.owner key l default hp j hj
    (by rw [hgd]; exact hak)
  obtain ⟨_, hlt, heq⟩ := bsGo_ok _ l default _ _ _ _ hi
  exact ⟨i, hi, hlt, (strCmp_eq_iff _ _).mp heq⟩

end Rsdns

namespace Rsdns

/-- C8: for every API-reachable domain trie `t` (the `SortedTree`
invariant: every sibling vector is sorted, which every `push` re-
establishes), every domain name `x` — given as its `rsplitn('.')` label
list, most significant label first, nonempty since Rust's split always
yields at least one part — and every record `r`: after `t.push(x)`
followed by `t.set_rr(x, r)`, the lookup `t.get_rr(x)` returns
`Some(r)`. -/
theorem domain_tree_insert_lookup (x : List String) :
    ∀ (t : DomainTree) (r : RR), SortedTree t → x ≠ [] →
      ((t.push x).set_rr x r).get_rr x = some r := by
  induction x with
  | nil => intro t r _ hx; exact absurd rfl hx
  | cons first rest ih =>
    intro t r hs _
    obtain ⟨o, l, tr⟩ := t
    cases hs with
    | node _ _ _ hp hc =>
    cases rest with
    | nil =>
      simp only [DomainTree.push, DomainTree.leaves_node, DomainTree.owner_node,
        DomainTree.rr_node]
      have hsorted := sortLeaves_pairwise (l ++ [DomainTree.node first [] none])
      have hmem : (DomainTree.node first [] none) ∈
          sortLeaves (l ++ [DomainTree.node first [] none]) :=
        mem_sortLeaves.mpr (by simp)
      obtain ⟨pos, hpos, hlt, hown⟩ :=
        leafSearch_finds_owner first _ hsorted _ hmem rfl
      simp only [DomainTree.set_rr, DomainTree.leaves_node,
        DomainTree.owner_node, DomainTree.rr_node, hpos]
      have hcong := leafSearch_congr first
        (sortLeaves (l ++ [DomainTree.node first [] none])) pos
        (.node ((sortLeaves (l ++ [DomainTree.node first [] none])).getD pos
            default).owner
          ((sortLeaves (l ++ [DomainTree.node first [] none])).getD pos
            default).leaves (some r)) hlt (by simp)
      simp only [DomainTree.get_rr, DomainTree.leaves_node, hcong, hpos]
      rw [getD_set_self' _ _ _ _ hlt]
      simp only [List.getD_eq_getElem?_getD] at hown
      simp [hown]
    | cons s rest2 =>
      have hrestne : (s :: rest2) ≠ ([] : List String) := by simp
      cases hsearch : leafSearch first l with
      | ok pos =>
        obtain ⟨_, hlt, heqcmp⟩ := bsGo_ok _ l default _ _ _ _ hsearch
        have hown : (l.getD pos default).owner = first :=
          (strCmp_eq_iff _ _).mp heqcmp
        simp only [DomainTree.push, DomainTree.leaves_node,
          DomainTree.owner_node, DomainTree.rr_node, hsearch]
        have hcong1 := leafSearch_congr first l pos
          ((l.getD pos default).push (s :: rest2)) hlt (push_owner _ _)
        simp only [DomainTree.set_rr, DomainTree.leaves_node,
          DomainTree.owner_node, DomainTree.rr_node, hcong1, hsearch]
        rw [getD_set_self' _ _ _ _ hlt, List.set_set]
        have hcong2 := leafSearch_congr first l pos
          (((l.getD pos default).push (s :: rest2)).set_rr (s :: rest2) r) hlt
          (by rw [set_rr_owner, push_owner])
        simp only [DomainTree.get_rr, DomainTree.leaves_node, hcong2, hsearch]
        rw [getD_set_self' _ _ _ _ hlt]
        exact ih (l.getD pos default) r (hc _ (getD_mem _ _ _ hlt)) hrestne
      | error e =>
        have hnomatch := leafSearch_err_no_match first l hp e hsearch
        simp only [DomainTree.push, DomainTree.leaves_node,
          DomainTree.owner_node, DomainTree.rr_node, hsearch]
        have hnsowner : ((DomainTree.node first [] none).push
            (s :: rest2)).owner = first := push_owner _ _
        have hsorted := sortLeaves_pairwise
          (l ++ [(DomainTree.node first [] none).push (s :: rest2)])
        have hmem : (DomainTree.node first [] none).push (s :: rest2) ∈
            sortLeaves (l ++ [(DomainTree.node first [] none).push
              (s :: rest2)]) :=
          mem_sortLeaves.mpr (by simp)
        obtain ⟨pos, hpos, hlt, hown⟩ :=
          leafSearch_finds_owner first _ hsorted _ hmem hnsowner
        have hgetd : (sortLeaves (l ++ [(DomainTree.node first [] none).push
            (s :: rest2)])).getD pos default =
            (DomainTree.node first [] none).push (s :: rest2) := by
          have hmm := mem_sortLeaves.mp (getD_mem _ pos default hlt)
          rcases List.mem_append.mp hmm with hin | hin
          · exact absurd hown (hnomatch _ hin)
          · simpa using hin
        simp only [DomainTree.set_rr, DomainTree.leaves_node,
          DomainTree.owner_node, DomainTree.rr_node, hpos]
        have hcong2 := leafSearch_congr first
          (sortLeaves (l ++ [(DomainTree.node first [] none).push
            (s :: rest2)])) pos
          (((sortLeaves (l ++ [(DomainTree.node first [] none).push
              (s :: rest2)])).getD pos default).set_rr (s :: rest2) r) hlt
          (set_rr_owner _ _ _)
        simp only [DomainTree.get_rr, DomainTree.leaves_node, hcong2, hpos]
        rw [getD_set_self' _ _ _ _ hlt, hgetd]
        exact ih (DomainTree.node first [] none) r
          (SortedTree.node first [] none List.Pairwise.nil
            (fun c hcm => absurd hcm (List.not_mem_nil c))) hrestne

end Rsdns

namespace Rsdns

/-- The record of `test_domaintree_set_rr`. -/
def domainTestRR : RR :=
  { name := [98, 97, 105, 100, 117, 46, 99, 111, 109], typ := 12, cls := 11,
    ttl := 13, rdlength := 0, rdata := .rnone }

/-- Witness for `domain_tree_insert_lookup`: insert `baidu.com` (label
list `["com", "baidu"]`) into the fresh root and look it up. -/
theorem domain_tree_insert_lookup_witness :
    (SortedTree DomainTree.new ∧ (["com", "baidu"] : List String) ≠ []) ∧
      ((DomainTree.new.push ["com", "baidu"]).set_rr ["com", "baidu"]
          domainTestRR).get_rr ["com", "baidu"] = some domainTestRR :=
  ⟨⟨SortedTree.node "." [] none List.Pairwise.nil
      (fun c hc => absurd hc (List.not_mem_nil c)), by simp⟩,
    domain_tree_insert_lookup ["com", "baidu"] DomainTree.new domainTestRR
      (SortedTree.node "." [] none List.Pairwise.nil
        (fun c hc => absurd hc (List.not_mem_nil c))) (by simp)⟩

end Rsdns
